import Mathlib

/-!
Shallow embedding of the question-schema validator and normalizer of
`tools/editor.py` (functions `validate_question`, `_normalize_connect_nodes`
and its inner `to_nodes`), together with proofs of the specification's
claims about them.

Python values flowing through those functions are JSON-like dynamic values:
`None`, booleans, integers, strings, lists and dicts.  They are embedded as
the inductive type `JVal`; Python truthiness, `str()`, `str.strip()`,
subscripting, iteration and `dict.get` are embedded as explicit functions.
Failures that would be Python exceptions (`TypeError`, `AttributeError`,
`KeyError`, `IndexError`) are embedded as `Except PyErr`.
-/

namespace Editor

/-- A Python/JSON dynamic value.  Dicts are association lists keyed by
strings (the only keys that occur in the editor's documents). -/
inductive JVal where
  | null
  | bool (b : Bool)
  | int (n : Int)
  | str (s : String)
  | arr (elems : List JVal)
  | obj (fields : List (String × JVal))

/-- The Python exceptions the embedded code can raise. -/
inductive PyErr where
  | typeError
  | attributeError
  | keyError
  | indexError
deriving DecidableEq

/-- Python truthiness (`bool(v)`) for the embedded values. -/
def JVal.truthy : JVal → Bool
  | .null => false
  | .bool b => b
  | .int n => decide (n ≠ 0)
  | .str s => decide (s ≠ "")
  | .arr xs => !xs.isEmpty
  | .obj fs => !fs.isEmpty

/-- Decimal digits of `n`, most significant first, with explicit fuel
(structurally recursive so that concrete values reduce in the kernel);
`natDecimal` below supplies sufficient fuel. -/
def toDecimalAux : Nat → Nat → List Char
  | 0, _ => []
  | fuel+1, n =>
    if n < 10 then [Nat.digitChar n]
    else toDecimalAux fuel (n / 10) ++ [Nat.digitChar (n % 10)]

/-- The decimal representation of a natural number, as Python renders
nonnegative integers in `str()` and f-strings. -/
def natDecimal (n : Nat) : String :=
  String.mk (toDecimalAux (n + 1) n)

/-- Python `str()` of an integer. -/
def intDecimal (n : Int) : String :=
  if n < 0 then "-" ++ natDecimal n.natAbs else natDecimal n.toNat

mutual

/-- Python `repr()` of an embedded value (string escaping inside nested
strings is not modelled; no claim involves strings needing escapes). -/
def pyRepr : JVal → String
  | .null => "None"
  | .bool true => "True"
  | .bool false => "False"
  | .int n => intDecimal n
  | .str s => "\x27" ++ s ++ "\x27"
  | .arr xs => "[" ++ pyReprList xs ++ "]"
  | .obj fs => "\x7b" ++ pyReprObj fs ++ "\x7d"

/-- Comma-separated `repr()`s of a list's elements. -/
def pyReprList : List JVal → String
  | [] => ""
  | [x] => pyRepr x
  | x :: y :: xs => pyRepr x ++ ", " ++ pyReprList (y :: xs)

/-- Comma-separated `key: value` renderings of a dict's entries. -/
def pyReprObj : List (String × JVal) → String
  | [] => ""
  | [kv] => "\x27" ++ kv.1 ++ "\x27: " ++ pyRepr kv.2
  | kv :: kw :: kvs => "\x27" ++ kv.1 ++ "\x27: " ++ pyRepr kv.2 ++ ", " ++ pyReprObj (kw :: kvs)

end

/-- Python `str()` of an embedded value. -/
def pyStr : JVal → String
  | .str s => s
  | .null => pyRepr .null
  | .bool b => pyRepr (.bool b)
  | .int n => pyRepr (.int n)
  | .arr xs => pyRepr (.arr xs)
  | .obj fs => pyRepr (.obj fs)

/-- The whitespace characters `str.strip()` removes (ASCII ones; the
documents contain no exotic Unicode whitespace). -/
def pyIsSpace (c : Char) : Bool :=
  c == ' ' || c == '\t' || c == '\n' || c == '\x0d' || c == '\x0b' || c == '\x0c'

/-- Python `s.strip()`. -/
def pyStrip (s : String) : String :=
  String.mk (((s.data.dropWhile pyIsSpace).reverse.dropWhile pyIsSpace).reverse)

/-- A Python dict as the validator receives it: an association list of
fields (no duplicate keys occur in the editor's documents). -/
abbrev QDict := List (String × JVal)

/-- Dictionary lookup: `q[k]` when `k` is present. -/
def getOpt (fs : QDict) (k : String) : Option JVal :=
  match fs.find? (fun kv => kv.1 == k) with
  | some kv => some kv.2
  | none => none

/-- Python `q.get(k)`, whose default is `None`. -/
def getD (fs : QDict) (k : String) : JVal :=
  (getOpt fs k).getD .null

/-- Python `k in q` for a dict. -/
def hasKey (fs : QDict) (k : String) : Bool :=
  (getOpt fs k).isSome

/-- Python `isinstance(v, bool)`. -/
def isBool : JVal → Bool
  | .bool _ => true
  | _ => false

/-- Python `isinstance(v, int)` — `bool` is a subclass of `int`. -/
def pyIsInt : JVal → Bool
  | .int _ => true
  | .bool _ => true
  | _ => false

/-- Python `isinstance(v, str)`. -/
def isStr : JVal → Bool
  | .str _ => true
  | _ => false

/-- Python `isinstance(v, list)`. -/
def isList : JVal → Bool
  | .arr _ => true
  | _ => false

/-- The integer value of a Python `int` (including `bool`, which compares
and sorts as `0`/`1`). -/
def pyToInt : JVal → Int
  | .int n => n
  | .bool b => if b then 1 else 0
  | _ => 0

/-- Python `v or []`: the left operand when truthy, else the empty list. -/
def orEmptyList (v : JVal) : JVal :=
  if v.truthy then v else .arr []

/-- Python `v[0]`. -/
def pySub0 : JVal → Except PyErr JVal
  | .arr (x :: _) => .ok x
  | .arr [] => .error .indexError
  | .str s =>
    match s.data with
    | c :: _ => .ok (.str (String.mk [c]))
    | [] => .error .indexError
  | .obj _ => .error .keyError
  | _ => .error .typeError

/-- Python `for x in v`: the sequence of iterated values (characters of a
string iterate as one-character strings, a dict iterates its keys). -/
def pyIter : JVal → Except PyErr (List JVal)
  | .arr xs => .ok xs
  | .str s => .ok (s.data.map (fun c => .str (String.mk [c])))
  | .obj fs => .ok (fs.map (fun kv => .str kv.1))
  | _ => .error .typeError

/-!  The validator, `validate_question` (editor.py lines 88-168).  Each
question type's block only returns early on failure, so each is embedded as
a function producing the block's verdict; the blocks that can raise
(`fill_table`'s `table.get` on a truthy non-dict, `connect_nodes`' `for pr
in pairs` on a truthy non-iterable) return `Except`.  -/

/-- Lines 95-98: `bool((q.get('explanation') or '').strip())` — a truthy
non-string explanation raises `AttributeError` on `.strip()`. -/
def explStripTruthy (v : JVal) : Except PyErr Bool :=
  if v.truthy then
    match v with
    | .str s => .ok (decide (pyStrip s ≠ ""))
    | _ => .error .attributeError
  else
    .ok false

/-- Lines 100-102, the `true_false` block. -/
def validate_true_false (q : QDict) : Bool × String :=
  if hasKey q "correct" = true ∧ isBool (getD q "correct") = true then (true, "OK")
  else (false, "true_false requires boolean \x22correct\x22")

/-- Lines 103-107, the `mc_single` block. -/
def validate_mc_single (q : QDict) : Bool × String :=
  match getD q "options" with
  | .arr opts =>
    if opts.length < 2 then (false, "mc_single requires options[] (>=2)")
    else if pyIsInt (getD q "correct") = true ∧ 0 ≤ pyToInt (getD q "correct") ∧
        pyToInt (getD q "correct") < (opts.length : Int) then (true, "OK")
    else (false, "mc_single requires numeric correct index")
  | _ => (false, "mc_single requires options[] (>=2)")

/-- Lines 108-115, the `mc_multi` block. -/
def validate_mc_multi (q : QDict) : Bool × String :=
  match getD q "options" with
  | .arr opts =>
    if opts.length < 2 then (false, "mc_multi requires options[] (>=2)")
    else
      match getD q "correct" with
      | .arr corr =>
        if ¬ (∀ i ∈ corr, pyIsInt i = true) then
          (false, "mc_multi requires array of correct indices")
        else if ∃ i ∈ corr, pyToInt i < 0 ∨ (opts.length : Int) ≤ pyToInt i then
          (false, "mc_multi: correct indices out of range")
        else (true, "OK")
      | _ => (false, "mc_multi requires array of correct indices")
  | _ => (false, "mc_multi requires options[] (>=2)")

/-- Lines 116-118, the `fill_text` block. -/
def validate_fill_text (q : QDict) : Bool × String :=
  match getD q "answers" with
  | .arr answers =>
    if answers.length = 0 then (false, "fill_text requires answers[]") else (true, "OK")
  | _ => (false, "fill_text requires answers[]")

/-- Lines 119-123, the `fill_table` block: `table = q.get('table') or {}`
then `table.get('answers')`, which raises on a truthy non-dict `table`. -/
def validate_fill_table (q : QDict) : Except PyErr (Bool × String) :=
  let tv := getD q "table"
  if tv.truthy then
    match tv with
    | .obj tfs =>
      match getD tfs "answers" with
      | .arr rows =>
        if ∀ r ∈ rows, isList r = true then .ok (true, "OK")
        else .ok (false, "fill_table requires table.answers as 2D array")
      | _ => .ok (false, "fill_table requires table.answers as 2D array")
    | _ => .error .attributeError
  else .ok (false, "fill_table requires table.answers as 2D array")

/-- The target order `list(range(n))` as integers. -/
def rangeInt (n : Nat) : List Int :=
  (List.range n).map Int.ofNat

/-- Lines 124-138, the `sort` block.  `sorted(corr)` sorts the integer
values ascending (`bool`s sort by their numeric value). -/
def validate_sort (q : QDict) : Bool × String :=
  match getD q "items" with
  | .arr items =>
    if items.length < 2 then (false, "sort requires items[] (>=2)")
    else
      match getD q "correct" with
      | .arr corr =>
        if ¬ (∀ i ∈ corr, pyIsInt i = true) then
          (false, "sort requires correct[] as array of indices (0..n-1)")
        else if corr.length ≠ items.length then
          (false, "sort correct[] must have the same length as items[]")
        else if ∃ i ∈ corr, pyToInt i < 0 ∨ (items.length : Int) ≤ pyToInt i then
          (false, "sort: correct indices out of range")
        else if List.insertionSort (· ≤ ·) (corr.map pyToInt) ≠ rangeInt items.length then
          (false, "sort: correct[] must contain each index 0..n-1 exactly once (a permutation)")
        else (true, "OK")
      | _ => (false, "sort requires correct[] as array of indices (0..n-1)")
  | _ => (false, "sort requires items[] (>=2)")

/-- Lines 147-148: `str(n.get('id'))` for the dict nodes carrying an `id`
key; other entries contribute no id. -/
def nodeIdOf : JVal → Option String
  | .obj fs => if hasKey fs "id" then some (pyStr (getD fs "id")) else none
  | _ => none

/-- Lines 156-165, the pair loop: `usedL`/`usedR` accumulate the ids
already matched (Python sets, embedded as lists of their elements). -/
def cnPairsLoop (lset rset : List String) : List JVal → List String → List String → Bool × String
  | [], _, _ => (true, "OK")
  | pr :: rest, usedL, usedR =>
    match pr with
    | .obj fs =>
      if hasKey fs "leftId" = true ∧ hasKey fs "rightId" = true then
        if pyStr (getD fs "leftId") ∈ lset ∧ pyStr (getD fs "rightId") ∈ rset then
          if pyStr (getD fs "leftId") ∈ usedL ∨ pyStr (getD fs "rightId") ∈ usedR then
            (false, "connect_nodes: one-to-one mapping violated (duplicate left or right)")
          else
            cnPairsLoop lset rset rest (pyStr (getD fs "leftId") :: usedL)
              (pyStr (getD fs "rightId") :: usedR)
        else (false, "connect_nodes: pair references unknown node id")
      else (false, "connect_nodes: each pair must be \x7bleftId,rightId\x7d")
    | _ => (false, "connect_nodes: each pair must be \x7bleftId,rightId\x7d")

/-- Lines 139-165, the `connect_nodes` block.  `len(set(ids)) != len(ids)`
is the duplicate test (`dedup` is the set of distinct elements); `pairs` is
only iterated, never `isinstance`-checked, so a truthy non-iterable raises. -/
def validate_connect_nodes (q : QDict) : Except PyErr (Bool × String) :=
  match orEmptyList (getD q "leftNodes"), orEmptyList (getD q "rightNodes") with
  | .arr ln, .arr rn =>
    let left_ids := ln.filterMap nodeIdOf
    let right_ids := rn.filterMap nodeIdOf
    if left_ids.dedup.length ≠ left_ids.length then
      .ok (false, "connect_nodes: duplicate left node IDs")
    else if right_ids.dedup.length ≠ right_ids.length then
      .ok (false, "connect_nodes: duplicate right node IDs")
    else
      match pyIter (orEmptyList (getD q "correctPairs")) with
      | .ok prs => .ok (cnPairsLoop left_ids right_ids prs [] [])
      | .error e => .error e
  | _, _ => .ok (false, "connect_nodes requires leftNodes[] and rightNodes[]")

/-- Lines 99-167: the dispatch on `q.get('type')` (`t == 'x'` only holds
for the string `'x'`), ending in the unknown-type rejection. -/
def validate_typed (q : QDict) : Except PyErr (Bool × String) :=
  match getD q "type" with
  | .str "true_false" => .ok (validate_true_false q)
  | .str "mc_single" => .ok (validate_mc_single q)
  | .str "mc_multi" => .ok (validate_mc_multi q)
  | .str "fill_text" => .ok (validate_fill_text q)
  | .str "fill_table" => validate_fill_table q
  | .str "sort" => .ok (validate_sort q)
  | .str "connect_nodes" => validate_connect_nodes q
  | t => .ok (false, "Unknown type: " ++ pyStr t)

/-- `validate_question` (lines 88-168): the base required fields in order,
the explanation-or-image requirement, then the per-type dispatch. -/
def validate_question (q : QDict) : Except PyErr (Bool × String) :=
  if (getD q "id").truthy = false then .ok (false, "Missing field: id")
  else if (getD q "type").truthy = false then .ok (false, "Missing field: type")
  else if (getD q "question").truthy = false then .ok (false, "Missing field: question")
  else
    match explStripTruthy (getD q "explanation") with
    | .error e => .error e
    | .ok hasTextExpl =>
      if (hasTextExpl || (getD q "explanation_image").truthy) = false then
        .ok (false, "Provide either explanation text or explanation_image (or both)")
      else validate_typed q

/-!  The normalizer, `_normalize_connect_nodes` (editor.py lines 173-226),
and its inner `to_nodes`.  Normalized nodes are `(id, label)` pairs of
strings and normalized pairs `(leftId, rightId)` pairs of strings; `cnJ`
renders the returned `{leftNodes, rightNodes, correctPairs}` dict. -/

/-- A normalized node rendered back as the dict `{id: ..., label: ...}`. -/
def nodeJ (n : String × String) : JVal :=
  .obj [("id", .str n.1), ("label", .str n.2)]

/-- A normalized pair rendered back as `{leftId: ..., rightId: ...}`. -/
def pairJ (p : String × String) : JVal :=
  .obj [("leftId", .str p.1), ("rightId", .str p.2)]

/-- The normalizer's result dict `{leftNodes, rightNodes, correctPairs}`. -/
def cnJ (l r ps : List (String × String)) : JVal :=
  .obj [("leftNodes", .arr (l.map nodeJ)), ("rightNodes", .arr (r.map nodeJ)),
    ("correctPairs", .arr (ps.map pairJ))]

/-- Lines 202-204, the `while nid in seen` loop: successive candidates
`prefix + str(idx)` for `idx+1, idx+2, ...` until one is not in `seen`.
The fuel `seen.length + 1` always suffices (`whileFreshAux_not_mem` below):
that many candidates are pairwise distinct, so they cannot all lie in
`seen`; the fuel-exhausted branch is unreachable. -/
def whileFreshAux : Nat → String → List String → Nat → String × Nat
  | 0, pre, _, j => (pre ++ natDecimal j, j)
  | f+1, pre, seen, j =>
    if pre ++ natDecimal j ∈ seen then whileFreshAux f pre seen (j + 1)
    else (pre ++ natDecimal j, j)

/-- Lines 202-204 around a candidate id: the initial `nid` is kept when not
yet in `seen`, else the while loop scans onward from `idx + 1`. -/
def pyFresh (pre : String) (seen : List String) (nid0 : String) (idx : Nat) : String × Nat :=
  if nid0 ∈ seen then whileFreshAux (seen.length + 1) pre seen (idx + 1) else (nid0, idx)

/-- Lines 195-200, the candidate id of one item before the while loop: a
dict item keeps its `id` when truthy (`str(item.get('id') or
f"{prefix}{idx}")`), anything else gets `f"{prefix}{idx}"`. -/
def itemNid0 (pre : String) (idx : Nat) : JVal → String
  | .obj fs => if (getD fs "id").truthy then pyStr (getD fs "id") else pre ++ natDecimal idx
  | _ => pre ++ natDecimal idx

/-- Lines 195-200, the label of one item: a dict item's truthy `label`
through `str()` (else `''`), and `str(item)` for any other item. -/
def itemLabel : JVal → String
  | .obj fs => if (getD fs "label").truthy then pyStr (getD fs "label") else ""
  | item => pyStr item

/-- Lines 190-208, `to_nodes`'s loop over the items, carrying `seen` (the
ids emitted so far) and the counter `idx`. -/
def to_nodes_go (pre : String) : List JVal → List String → Nat → List (String × String)
  | [], _, _ => []
  | item :: rest, seen, idx =>
    let fr := pyFresh pre seen (itemNid0 pre idx item) idx
    (fr.1, itemLabel item) :: to_nodes_go pre rest (fr.1 :: seen) (fr.2 + 1)

/-- `to_nodes(arr, prefix)` (lines 190-208): starts with no ids seen and
`idx = 1`. -/
def to_nodes (items : List JVal) (pre : String) : List (String × String) :=
  to_nodes_go pre items [] 1

/-- Lines 215-216: the label-to-id dict comprehension
`{ (n.get('label') or '').strip(): n['id'] for n in nodes }` — on duplicate
stripped labels the LAST node wins, as later dict entries overwrite. -/
def lblMapGet (nodes : List (String × String)) (k : String) : Option String :=
  match nodes.reverse.find? (fun n => pyStrip n.2 == k) with
  | some n => some n.1
  | none => none

/-- Lines 222-225: resolving one legacy `{left, right}` pair through the
label maps; `if lid and rid` keeps the pair only when both resolved ids are
truthy strings. -/
def resolveLegacy (ln rn : List (String × String)) (lv rv : JVal) : Option (String × String) :=
  match lblMapGet ln (pyStrip (pyStr lv)), lblMapGet rn (pyStrip (pyStr rv)) with
  | some lid, some rid => if lid ≠ "" ∧ rid ≠ "" then some (lid, rid) else none
  | _, _ => none

/-- Lines 217-225, the pair-normalization loop: canonical `{leftId,rightId}`
entries are kept verbatim through `str()`, legacy `{left,right}` entries are
resolved by label, anything else is skipped. -/
def normPairs (ln rn : List (String × String)) : List JVal → List (String × String)
  | [] => []
  | pr :: rest =>
    match pr with
    | .obj fs =>
      if hasKey fs "leftId" = true ∧ hasKey fs "rightId" = true then
        (pyStr (getD fs "leftId"), pyStr (getD fs "rightId")) :: normPairs ln rn rest
      else if hasKey fs "left" = true ∧ hasKey fs "right" = true then
        match resolveLegacy ln rn (getD fs "left") (getD fs "right") with
        | some p => p :: normPairs ln rn rest
        | none => normPairs ln rn rest
      else normPairs ln rn rest
    | _ => normPairs ln rn rest

/-- Line 210-211: `left and isinstance(left[0], str)` — evaluating `left[0]`
on a truthy value can raise (`TypeError` for an int, `KeyError` for a dict). -/
def hasStrHead (v : JVal) : Except PyErr Bool :=
  if v.truthy then
    match pySub0 v with
    | .ok x => .ok (isStr x)
    | .error e => .error e
  else .ok false

/-- Line 212-213: `to_nodes(left, prefix) if left else []` — the iteration
underlying `to_nodes`' `for item in arr` (never raises once `left[0]`
succeeded, but embedded faithfully as iteration). -/
def iterIfTruthy (v : JVal) : Except PyErr (List JVal) :=
  if v.truthy then pyIter v else .ok []

/-- `_normalize_connect_nodes` (lines 173-226).  A falsy argument returns
the empty canonical dict; `.get` on a truthy non-dict raises
`AttributeError`; evaluation order of the raising sites follows the
source: `left[0]`, `right[0]`, the node iterations, then the pair loop. -/
def _normalize_connect_nodes (q : JVal) : Except PyErr JVal :=
  if q.truthy then
    match q with
    | .obj qf =>
      match hasStrHead (orEmptyList (getD qf "leftNodes")) with
      | .error e => .error e
      | .ok _ =>
        match hasStrHead (orEmptyList (getD qf "rightNodes")) with
        | .error e => .error e
        | .ok _ =>
          match iterIfTruthy (orEmptyList (getD qf "leftNodes")) with
          | .error e => .error e
          | .ok litems =>
            match iterIfTruthy (orEmptyList (getD qf "rightNodes")) with
            | .error e => .error e
            | .ok ritems =>
              match pyIter (orEmptyList (getD qf "correctPairs")) with
              | .error e => .error e
              | .ok prs =>
                .ok (cnJ (to_nodes litems "l") (to_nodes ritems "r")
                  (normPairs (to_nodes litems "l") (to_nodes ritems "r") prs))
    | _ => .error .attributeError
  else .ok (cnJ [] [] [])

/-!  Properties of the decimal rendering: the fuel is irrelevant once
sufficient, rendering round-trips through parsing, hence it is injective
and never empty.  These feed the freshness argument for allocated node
ids. -/

/-- Reading decimal digits back (the left fold a positional numeral is). -/
def parseDec (cs : List Char) : Nat :=
  cs.foldl (fun acc c => acc * 10 + (c.toNat - 48)) 0

theorem digitChar_toNat_sub : ∀ m, m < 10 → (Nat.digitChar m).toNat - 48 = m := by decide

theorem toDecimalAux_congr (n : Nat) : ∀ f g, n < f → n < g → toDecimalAux f n = toDecimalAux g n := by
  induction n using Nat.strong_induction_on with
  | _ n ih =>
    intro f g hf hg
    match f, g with
    | f + 1, g + 1 =>
      by_cases h : n < 10
      · simp [toDecimalAux, h]
      · have hdiv : n / 10 < n := Nat.div_lt_self (by omega) (by omega)
        simp only [toDecimalAux, if_neg h]
        rw [ih (n / 10) hdiv f g (by omega) (by omega)]

theorem toDecimalAux_ne_nil (f n : Nat) : toDecimalAux (f + 1) n ≠ [] := by
  simp only [toDecimalAux]
  split <;> simp

theorem parseDec_toDecimalAux (n : Nat) : parseDec (toDecimalAux (n + 1) n) = n := by
  induction n using Nat.strong_induction_on with
  | _ n ih =>
    by_cases h : n < 10
    · simp only [toDecimalAux, if_pos h, parseDec, List.foldl]
      rw [Nat.zero_mul, Nat.zero_add]
      exact digitChar_toNat_sub n h
    · have hdiv : n / 10 < n := Nat.div_lt_self (by omega) (by omega)
      have hstep : toDecimalAux (n + 1) n = toDecimalAux (n / 10 + 1) (n / 10) ++ [Nat.digitChar (n % 10)] := by
        have h1 : toDecimalAux (n + 1) n = toDecimalAux n (n / 10) ++ [Nat.digitChar (n % 10)] := by
          simp only [toDecimalAux, if_neg h]
        rw [h1, toDecimalAux_congr (n / 10) n (n / 10 + 1) (by omega) (by omega)]
      have hih := ih (n / 10) hdiv
      simp only [parseDec] at hih ⊢
      rw [hstep, List.foldl_append, hih]
      simp only [List.foldl]
      rw [digitChar_toNat_sub (n % 10) (Nat.mod_lt n (by omega))]
      omega

theorem natDecimal_injective : Function.Injective natDecimal := by
  intro m n h
  have h2 : parseDec (natDecimal m).data = parseDec (natDecimal n).data := by rw [h]
  simpa [natDecimal, parseDec_toDecimalAux] using h2

theorem natDecimal_ne_empty (n : Nat) : natDecimal n ≠ "" := by
  intro h
  exact toDecimalAux_ne_nil n n (congrArg String.data h)

theorem str_append_cancel {pre a b : String} (h : pre ++ a = pre ++ b) : a = b := by
  apply String.ext
  have h2 : (pre ++ a).data = (pre ++ b).data := congrArg String.data h
  rw [String.data_append, String.data_append] at h2
  exact List.append_cancel_left h2

theorem str_append_ne_empty {pre b : String} (hb : b ≠ "") : pre ++ b ≠ "" := by
  intro h
  apply hb
  apply String.ext
  have h2 : (pre ++ b).data = ("" : String).data := congrArg String.data h
  rw [String.data_append] at h2
  exact (List.append_eq_nil.mp h2).2

theorem dedup_length_eq_iff {l : List String} : l.dedup.length = l.length ↔ l.Nodup := by
  constructor
  · intro h
    have he : l.dedup = l := (List.dedup_sublist l).eq_of_length h
    rw [← he]
    exact List.nodup_dedup l
  · intro h
    rw [List.dedup_eq_self.mpr h]

/-!  Freshness of allocated ids: the while loop's result is a candidate of
the form `prefix + decimal` and never an id already seen, because among
`seen.length + 1` pairwise-distinct candidates not all can be in `seen`. -/

theorem whileFreshAux_shape (f : Nat) : ∀ pre seen j, ∃ k, whileFreshAux f pre seen j = (pre ++ natDecimal k, k) := by
  induction f with
  | zero => intro pre seen j; exact ⟨j, rfl⟩
  | succ f ih =>
    intro pre seen j
    simp only [whileFreshAux]
    split
    · exact ih pre seen (j + 1)
    · exact ⟨j, rfl⟩

theorem whileFreshAux_not_mem_of_exists (f : Nat) :
    ∀ pre seen j, (∃ k, k < f ∧ pre ++ natDecimal (j + k) ∉ seen) →
    (whileFreshAux f pre seen j).1 ∉ seen := by
  induction f with
  | zero =>
    intro pre seen j h
    obtain ⟨k, hk, _⟩ := h
    omega
  | succ f ih =>
    intro pre seen j h
    obtain ⟨k, hk, hfree⟩ := h
    simp only [whileFreshAux]
    split
    · apply ih pre seen (j + 1)
      match k with
      | 0 =>
        rw [Nat.add_zero] at hfree
        exact absurd (by assumption) hfree
      | k + 1 =>
        refine ⟨k, by omega, ?_⟩
        have harith : j + 1 + k = j + (k + 1) := by omega
        rw [harith]
        exact hfree
    · simpa using (by assumption : ¬ pre ++ natDecimal j ∈ seen)

theorem exists_fresh_candidate (pre : String) (seen : List String) (j : Nat) :
    ∃ k, k < seen.length + 1 ∧ pre ++ natDecimal (j + k) ∉ seen := by
  by_contra hc
  push_neg at hc
  have hinj : Function.Injective (fun k => pre ++ natDecimal (j + k)) := by
    intro a b hab
    have h1 := str_append_cancel hab
    have h2 := natDecimal_injective h1
    omega
  have hnd : ((List.range (seen.length + 1)).map (fun k => pre ++ natDecimal (j + k))).Nodup :=
    List.Nodup.map hinj (List.nodup_range _)
  have hsub : ((List.range (seen.length + 1)).map (fun k => pre ++ natDecimal (j + k))) ⊆ seen := by
    intro x hx
    rcases List.mem_map.mp hx with ⟨k, hk, rfl⟩
    exact hc k (List.mem_range.mp hk)
  have hle := (hnd.subperm hsub).length_le
  simp at hle

theorem pyFresh_not_mem (pre : String) (seen : List String) (nid0 : String) (idx : Nat) :
    (pyFresh pre seen nid0 idx).1 ∉ seen := by
  unfold pyFresh
  split
  · exact whileFreshAux_not_mem_of_exists (seen.length + 1) pre seen (idx + 1)
      (exists_fresh_candidate pre seen (idx + 1))
  · assumption

theorem pyFresh_ne_empty {pre seen nid0 idx} (h0 : nid0 ≠ "") :
    (pyFresh pre seen nid0 idx).1 ≠ "" := by
  unfold pyFresh
  split
  · obtain ⟨k, hk⟩ := whileFreshAux_shape (seen.length + 1) pre seen (idx + 1)
    rw [hk]
    exact str_append_ne_empty (natDecimal_ne_empty k)
  · exact h0

theorem intDecimal_ne_empty (n : Int) : intDecimal n ≠ "" := by
  unfold intDecimal
  split
  · exact str_append_ne_empty (natDecimal_ne_empty _)
  · exact natDecimal_ne_empty _

theorem pyRepr_ne_empty (v : JVal) : pyRepr v ≠ "" := by
  cases v with
  | null => decide
  | bool b => cases b <;> decide
  | int n => exact intDecimal_ne_empty n
  | str s =>
    show "\x27" ++ s ++ "\x27" ≠ ""
    exact str_append_ne_empty (by decide)
  | arr xs =>
    show "[" ++ pyReprList xs ++ "]" ≠ ""
    exact str_append_ne_empty (by decide)
  | obj fs =>
    show "\x7b" ++ pyReprObj fs ++ "\x7d" ≠ ""
    exact str_append_ne_empty (by decide)

theorem pyStr_truthy_ne_empty {v : JVal} (h : v.truthy = true) : pyStr v ≠ "" := by
  cases v with
  | str s =>
    simp only [JVal.truthy, decide_eq_true_eq] at h
    simpa [pyStr] using h
  | null => simp [JVal.truthy] at h
  | bool b => exact pyRepr_ne_empty (.bool b)
  | int n => exact pyRepr_ne_empty (.int n)
  | arr xs => exact pyRepr_ne_empty (.arr xs)
  | obj fs => exact pyRepr_ne_empty (.obj fs)

/-!  Structure of `to_nodes`: emitted ids are never empty, never collide
with previously seen ids, and are pairwise distinct; and on an
already-canonical node list with nonempty per-side-unique ids it is the
identity. -/

theorem itemNid0_ne_empty (pre : String) (idx : Nat) (item : JVal) : itemNid0 pre idx item ≠ "" := by
  cases item with
  | obj fs =>
    simp only [itemNid0]
    split
    · exact pyStr_truthy_ne_empty (by assumption)
    · exact str_append_ne_empty (natDecimal_ne_empty idx)
  | null => exact str_append_ne_empty (natDecimal_ne_empty idx)
  | bool b => exact str_append_ne_empty (natDecimal_ne_empty idx)
  | int n => exact str_append_ne_empty (natDecimal_ne_empty idx)
  | str s => exact str_append_ne_empty (natDecimal_ne_empty idx)
  | arr xs => exact str_append_ne_empty (natDecimal_ne_empty idx)

theorem to_nodes_go_ids (pre : String) (items : List JVal) : ∀ seen idx,
    ((to_nodes_go pre items seen idx).map Prod.fst).Nodup ∧
    ∀ n ∈ to_nodes_go pre items seen idx, n.1 ∉ seen ∧ n.1 ≠ "" := by
  induction items with
  | nil => intro seen idx; simp [to_nodes_go]
  | cons item rest ih =>
    intro seen idx
    obtain ⟨ih1, ih2⟩ :=
      ih ((pyFresh pre seen (itemNid0 pre idx item) idx).1 :: seen)
        ((pyFresh pre seen (itemNid0 pre idx item) idx).2 + 1)
    simp only [to_nodes_go, List.map_cons, List.nodup_cons, List.mem_cons]
    refine ⟨⟨?_, ih1⟩, ?_⟩
    · intro hmem
      rcases List.mem_map.mp hmem with ⟨n, hn, hfst⟩
      exact (ih2 n hn).1 (by rw [hfst]; exact List.mem_cons_self _ _)
    · intro n hn
      rcases hn with hn | hn
      · rw [hn]
        exact ⟨pyFresh_not_mem pre seen _ idx, pyFresh_ne_empty (itemNid0_ne_empty pre idx item)⟩
      · have h2 := ih2 n hn
        exact ⟨fun hmem => h2.1 (List.mem_cons_of_mem _ hmem), h2.2⟩

theorem to_nodes_ids_nodup (items : List JVal) (pre : String) :
    ((to_nodes items pre).map Prod.fst).Nodup :=
  (to_nodes_go_ids pre items [] 1).1

theorem to_nodes_ids_ne_empty (items : List JVal) (pre : String) :
    ∀ n ∈ to_nodes items pre, n.1 ≠ "" :=
  fun n hn => ((to_nodes_go_ids pre items [] 1).2 n hn).2

theorem getD_node_id (a b : String) : getD [("id", .str a), ("label", .str b)] "id" = .str a := rfl

theorem getD_node_label (a b : String) : getD [("id", .str a), ("label", .str b)] "label" = .str b := rfl

theorem itemNid0_nodeJ {n : String × String} (h : n.1 ≠ "") (pre : String) (idx : Nat) :
    itemNid0 pre idx (nodeJ n) = n.1 := by
  obtain ⟨a, b⟩ := n
  simp only [itemNid0, nodeJ, getD_node_id]
  rw [if_pos (by simpa [JVal.truthy] using h)]
  rfl

theorem itemLabel_nodeJ (n : String × String) : itemLabel (nodeJ n) = n.2 := by
  obtain ⟨a, b⟩ := n
  simp only [itemLabel, nodeJ, getD_node_label]
  by_cases hb : b = ""
  · rw [if_neg (by simp [JVal.truthy, hb])]
    exact hb.symm
  · rw [if_pos (by simpa [JVal.truthy] using hb)]
    rfl

theorem to_nodes_go_preserve (pre : String) (l : List (String × String)) : ∀ seen idx,
    (∀ n ∈ l, n.1 ≠ "") → (l.map Prod.fst).Nodup → (∀ n ∈ l, n.1 ∉ seen) →
    to_nodes_go pre (l.map nodeJ) seen idx = l := by
  induction l with
  | nil => intro seen idx _ _ _; rfl
  | cons n rest ih =>
    intro seen idx hne hnd hseen
    have hn1 : n.1 ≠ "" := hne n (List.mem_cons_self _ _)
    have hfr : pyFresh pre seen (itemNid0 pre idx (nodeJ n)) idx = (n.1, idx) := by
      rw [itemNid0_nodeJ hn1]
      exact if_neg (hseen n (List.mem_cons_self _ _))
    simp only [List.map_cons, to_nodes_go, hfr, itemLabel_nodeJ]
    simp only [List.map_cons, List.nodup_cons] at hnd
    rw [ih (n.1 :: seen) (idx + 1) (fun m hm => hne m (List.mem_cons_of_mem _ hm)) hnd.2 ?rest]
    case rest =>
      intro m hm
      simp only [List.mem_cons]
      push_neg
      constructor
      · intro heq
        exact hnd.1 (heq ▸ List.mem_map_of_mem Prod.fst hm)
      · exact hseen m (List.mem_cons_of_mem _ hm)

theorem normPairs_pairJ (ln rn : List (String × String)) (ps : List (String × String)) :
    normPairs ln rn (ps.map pairJ) = ps := by
  induction ps with
  | nil => rfl
  | cons p rest ih =>
    simp only [List.map_cons, pairJ, normPairs]
    rw [if_pos ⟨rfl, rfl⟩]
    rw [ih]
    rfl

/-!  Evaluating the normalizer on a document in the canonical shape
`cnJ l r ps`, and the resulting idempotence. -/

theorem truthy_obj_cons (kv : String × JVal) (fs : List (String × JVal)) :
    (JVal.obj (kv :: fs)).truthy = true := rfl

theorem orEmptyList_arr (xs : List JVal) : orEmptyList (.arr xs) = .arr xs := by
  cases xs <;> rfl

theorem hasStrHead_arr (xs : List JVal) : ∃ b, hasStrHead (.arr xs) = .ok b := by
  cases xs with
  | nil => exact ⟨false, rfl⟩
  | cons x rest => exact ⟨isStr x, rfl⟩

theorem iterIfTruthy_arr (xs : List JVal) : iterIfTruthy (.arr xs) = .ok xs := by
  cases xs <;> rfl

theorem getD_cn_left (x y z : JVal) :
    getD [("leftNodes", x), ("rightNodes", y), ("correctPairs", z)] "leftNodes" = x := rfl

theorem getD_cn_right (x y z : JVal) :
    getD [("leftNodes", x), ("rightNodes", y), ("correctPairs", z)] "rightNodes" = y := rfl

theorem getD_cn_pairs (x y z : JVal) :
    getD [("leftNodes", x), ("rightNodes", y), ("correctPairs", z)] "correctPairs" = z := rfl

theorem normalize_cnJ_eval (l r ps : List (String × String)) :
    _normalize_connect_nodes (cnJ l r ps) =
      .ok (cnJ (to_nodes (l.map nodeJ) "l") (to_nodes (r.map nodeJ) "r")
        (normPairs (to_nodes (l.map nodeJ) "l") (to_nodes (r.map nodeJ) "r") (ps.map pairJ))) := by
  obtain ⟨bl, hbl⟩ := hasStrHead_arr (l.map nodeJ)
  obtain ⟨br, hbr⟩ := hasStrHead_arr (r.map nodeJ)
  simp only [_normalize_connect_nodes, cnJ, truthy_obj_cons, if_true, getD_cn_left,
    getD_cn_right, getD_cn_pairs, orEmptyList_arr, hbl, hbr, iterIfTruthy_arr, pyIter]

theorem to_nodes_preserve {l : List (String × String)} (pre : String)
    (hne : ∀ n ∈ l, n.1 ≠ "") (hnd : (l.map Prod.fst).Nodup) :
    to_nodes (l.map nodeJ) pre = l :=
  to_nodes_go_preserve pre l [] 1 hne hnd (by simp)

theorem normalize_canonical (l r ps : List (String × String))
    (hlne : ∀ n ∈ l, n.1 ≠ "") (hlnd : (l.map Prod.fst).Nodup)
    (hrne : ∀ n ∈ r, n.1 ≠ "") (hrnd : (r.map Prod.fst).Nodup) :
    _normalize_connect_nodes (cnJ l r ps) = .ok (cnJ l r ps) := by
  rw [normalize_cnJ_eval, to_nodes_preserve "l" hlne hlnd, to_nodes_preserve "r" hrne hrnd,
    normPairs_pairJ]

theorem normalize_ok_shape {q out : JVal} (h : _normalize_connect_nodes q = .ok out) :
    ∃ li ri prs, out =
      cnJ (to_nodes li "l") (to_nodes ri "r")
        (normPairs (to_nodes li "l") (to_nodes ri "r") prs) := by
  unfold _normalize_connect_nodes at h
  split at h
  · split at h
    · split at h
      · simp at h
      · split at h
        · simp at h
        · split at h
          · simp at h
          · split at h
            · simp at h
            · split at h
              · simp at h
              · injection h with h2
                exact ⟨_, _, _, h2.symm⟩
    · simp at h
  · injection h with h2
    exact ⟨[], [], [], h2.symm⟩

theorem normalize_idempotent {q out : JVal} (h : _normalize_connect_nodes q = .ok out) :
    _normalize_connect_nodes out = .ok out := by
  obtain ⟨li, ri, prs, rfl⟩ := normalize_ok_shape h
  exact normalize_canonical _ _ _ (to_nodes_ids_ne_empty li "l") (to_nodes_ids_nodup li "l")
    (to_nodes_ids_ne_empty ri "r") (to_nodes_ids_nodup ri "r")

/-!  Question builders used by the claims: a record with the base fields
present (`id`, `type`, `question` nonempty, `explanation` text) plus the
type-specific payload. -/

/-- A question record with nonempty base fields of the given type and the
given payload fields. -/
def mkQ (t : String) (extra : QDict) : QDict :=
  [("id", .str "q1"), ("type", .str t), ("question", .str "Q?"), ("explanation", .str "E")] ++ extra

theorem validate_mkQ_sort (extra : QDict) :
    validate_question (mkQ "sort" extra) = .ok (validate_sort (mkQ "sort" extra)) := rfl

theorem validate_mkQ_mc_multi (extra : QDict) :
    validate_question (mkQ "mc_multi" extra) = .ok (validate_mc_multi (mkQ "mc_multi" extra)) := rfl

theorem validate_mkQ_connect_nodes (extra : QDict) :
    validate_question (mkQ "connect_nodes" extra) = validate_connect_nodes (mkQ "connect_nodes" extra) := rfl

theorem rangeInt_length (n : Nat) : (rangeInt n).length = n := by
  simp [rangeInt]

theorem rangeInt_sorted (n : Nat) : List.Sorted (· ≤ ·) (rangeInt n) := by
  refine List.Pairwise.map Int.ofNat ?_ (List.pairwise_lt_range n)
  intro a b hab
  exact Int.ofNat_le.mpr (Nat.le_of_lt hab)

theorem mem_rangeInt {v : Int} {n : Nat} (h : v ∈ rangeInt n) : 0 ≤ v ∧ v < (n : Int) := by
  rcases List.mem_map.mp h with ⟨k, hk, rfl⟩
  have hkn := List.mem_range.mp hk
  simp only [Int.ofNat_eq_natCast]
  omega

/-- C8 witness data and proofs use this record with everything missing. -/
def sortQ (items : List JVal) (corr : List Int) : QDict :=
  mkQ "sort" [("items", .arr items), ("correct", .arr (corr.map JVal.int))]

/-- The `mc_multi` record whose `correct` is a list of integer indices. -/
def mcQ (opts : List JVal) (corr : List Int) : QDict :=
  mkQ "mc_multi" [("options", .arr opts), ("correct", .arr (corr.map JVal.int))]

/-- C8: a question record missing (or carrying an empty/falsy) `id`,
`type` or `question` is rejected with a reason naming that field, the
fields being tested in the fixed order id, type, question before any
type-specific check. -/
theorem base_fields_checked_in_order (q : QDict) :
    ((getD q "id").truthy = false →
      validate_question q = .ok (false, "Missing field: id")) ∧
    ((getD q "id").truthy = true → (getD q "type").truthy = false →
      validate_question q = .ok (false, "Missing field: type")) ∧
    ((getD q "id").truthy = true → (getD q "type").truthy = true →
      (getD q "question").truthy = false →
      validate_question q = .ok (false, "Missing field: question")) := by
  refine ⟨fun h1 => ?_, fun h1 h2 => ?_, fun h1 h2 h3 => ?_⟩
  · simp [validate_question, h1]
  · simp [validate_question, h1, h2]
  · simp [validate_question, h1, h2, h3]

/-- C8 witness: a record with empty id is rejected naming id. -/
theorem base_fields_checked_in_order_witness :
    validate_question [("id", .str "")] = .ok (false, "Missing field: id") :=
  (base_fields_checked_in_order [("id", .str "")]).1 (by decide)

/-- The true-false record used by C9: `question` and `explanation` texts
are parameters, the rest is a complete valid payload. -/
def wsQ (wq we : String) : QDict :=
  [("id", .str "q1"), ("type", .str "true_false"), ("question", .str wq),
    ("explanation", .str we), ("correct", .bool true)]

/-- C9: the validator strips only the explanation, not the question — a
whitespace-only (but nonempty) `question` passes the base required-field
check and the record validates, while a whitespace-only `explanation` with
no `explanation_image` is rejected as absent. -/
theorem question_not_stripped_explanation_stripped (wq we : String)
    (hq : wq ≠ "") (_hqs : wq.data.all pyIsSpace = true) (hws : we.data.all pyIsSpace = true) :
    validate_question (wsQ wq "E") = .ok (true, "OK") ∧
    validate_question (wsQ wq we) = .ok (false,
      "Provide either explanation text or explanation_image (or both)") := by
  have htq : (JVal.str wq).truthy = true := by
    simp [JVal.truthy, hq]
  have hstrip : pyStrip we = "" := by
    have hd : we.data.dropWhile pyIsSpace = [] :=
      List.dropWhile_eq_nil_iff.mpr (fun x hx => List.all_eq_true.mp hws x hx)
    simp [pyStrip, hd]
  have hexpl : explStripTruthy (.str we) = .ok false := by
    by_cases hwe : we = ""
    · subst hwe; rfl
    · simp [explStripTruthy, JVal.truthy, hwe, hstrip]
  constructor
  · show validate_question _ = _
    unfold validate_question
    rw [show getD (wsQ wq "E") "question" = .str wq from rfl, htq]
    rfl
  · show validate_question _ = _
    unfold validate_question
    rw [show getD (wsQ wq we) "question" = .str wq from rfl, htq,
      show getD (wsQ wq we) "explanation" = .str we from rfl, hexpl]
    rfl

/-- C9 witness: question a single space is accepted, explanation a single
space counts as absent. -/
theorem question_not_stripped_explanation_stripped_witness :
    validate_question (wsQ " " "E") = .ok (true, "OK") ∧
    validate_question (wsQ " " " ") = .ok (false,
      "Provide either explanation text or explanation_image (or both)") :=
  question_not_stripped_explanation_stripped " " " " (by decide) (by decide) (by decide)

/-- C10: an `mc_multi` question with base fields present, a valid options
list and an empty `correct` list is accepted — no minimum number of
correct indices is imposed. -/
theorem mc_multi_empty_correct_valid (opts : List JVal) (h2 : 2 ≤ opts.length) :
    validate_question (mcQ opts []) = .ok (true, "OK") := by
  rw [show mcQ opts [] = mkQ "mc_multi" [("options", .arr opts), ("correct", .arr [])] from rfl,
    validate_mkQ_mc_multi]
  unfold validate_mc_multi
  rw [show getD (mkQ "mc_multi" [("options", .arr opts), ("correct", .arr [])]) "options" = .arr opts from rfl]
  rw [show getD (mkQ "mc_multi" [("options", .arr opts), ("correct", .arr [])]) "correct" = .arr [] from rfl]
  have hlt : ¬ opts.length < 2 := by omega
  simp [hlt]

/-- C10 witness: two options, no correct index, accepted. -/
theorem mc_multi_empty_correct_valid_witness :
    validate_question (mcQ [.str "a", .str "b"] []) = .ok (true, "OK") :=
  mc_multi_empty_correct_valid [.str "a", .str "b"] (by decide)

theorem pyToInt_int (v : Int) : pyToInt (.int v) = v := rfl

theorem pyIsInt_int (v : Int) : pyIsInt (.int v) = true := rfl

theorem mcQ_eval (opts : List JVal) (corr : List Int) (h2 : 2 ≤ opts.length) :
    validate_mc_multi (mcQ opts corr) =
      if ∀ i ∈ corr, 0 ≤ i ∧ i < (opts.length : Int) then (true, "OK")
      else (false, "mc_multi: correct indices out of range") := by
  unfold validate_mc_multi
  rw [show getD (mcQ opts corr) "options" = .arr opts from rfl,
    show getD (mcQ opts corr) "correct" = .arr (corr.map JVal.int) from rfl]
  have hlt : ¬ opts.length < 2 := by omega
  by_cases hin : ∀ i ∈ corr, 0 ≤ i ∧ i < (opts.length : Int)
  · have hex : ¬ ∃ a ∈ corr, a < 0 ∨ (opts.length : Int) ≤ a := by
      rintro ⟨v, hv, hbad⟩
      have := hin v hv
      omega
    simp [hlt, pyIsInt_int, pyToInt_int, hex]
    rw [if_pos hin]
  · have hex : ∃ a ∈ corr, a < 0 ∨ (opts.length : Int) ≤ a := by
      push_neg at hin
      obtain ⟨v, hv, hbad⟩ := hin
      exact ⟨v, hv, by omega⟩
    simp [hlt, pyIsInt_int, pyToInt_int, hex]
    rw [if_neg hin]

/-- C6: an `mc_multi` question with base fields present, a list of at
least two options and an integer list `correct` is accepted exactly when
every index lies in `[0, len(options))` — duplicates among the indices are
not checked — and an out-of-range index yields the range rejection. -/
theorem mc_multi_valid_iff_in_range (opts : List JVal) (corr : List Int) (h2 : 2 ≤ opts.length) :
    (validate_question (mcQ opts corr) = .ok (true, "OK") ↔
      ∀ i ∈ corr, 0 ≤ i ∧ i < (opts.length : Int)) ∧
    ((∃ i ∈ corr, i < 0 ∨ (opts.length : Int) ≤ i) →
      validate_question (mcQ opts corr) = .ok (false, "mc_multi: correct indices out of range")) := by
  have he : validate_question (mcQ opts corr) = .ok (validate_mc_multi (mcQ opts corr)) :=
    validate_mkQ_mc_multi [("options", .arr opts), ("correct", .arr (corr.map JVal.int))]
  rw [he, mcQ_eval opts corr h2]
  constructor
  · by_cases hin : ∀ i ∈ corr, 0 ≤ i ∧ i < (opts.length : Int)
    · simp [hin]
    · simp [hin]
  · intro hex
    have hin : ¬ ∀ i ∈ corr, 0 ≤ i ∧ i < (opts.length : Int) := by
      obtain ⟨v, hv, hbad⟩ := hex
      intro hall
      have := hall v hv
      omega
    simp [hin]

/-- C6 witness: options of length 2, correct `[0, 1, 1]` all in range is
accepted (duplicates unchecked); the iff instantiated concretely. -/
theorem mc_multi_valid_iff_in_range_witness :
    validate_question (mcQ [.str "a", .str "b"] [0, 1, 1]) = .ok (true, "OK") :=
  ((mc_multi_valid_iff_in_range [.str "a", .str "b"] [0, 1, 1] (by decide)).1).mpr (by decide)

theorem map_pyToInt_map_int (corr : List Int) :
    List.map pyToInt (List.map JVal.int corr) = corr := by
  induction corr with
  | nil => rfl
  | cons a l ih =>
    simp only [List.map_cons]
    rw [ih]
    rfl

theorem map_pyToInt_comp_int (corr : List Int) :
    List.map (pyToInt ∘ JVal.int) corr = corr := by
  rw [← List.map_map]
  exact map_pyToInt_map_int corr

theorem sortQ_eval (items : List JVal) (corr : List Int) (h2 : 2 ≤ items.length) :
    validate_sort (sortQ items corr) =
      if corr.length = items.length then
        if ∃ v ∈ corr, v < 0 ∨ (items.length : Int) ≤ v then
          (false, "sort: correct indices out of range")
        else if List.insertionSort (· ≤ ·) corr = rangeInt items.length then (true, "OK")
        else
          (false, "sort: correct[] must contain each index 0..n-1 exactly once (a permutation)")
      else (false, "sort correct[] must have the same length as items[]") := by
  unfold validate_sort
  rw [show getD (sortQ items corr) "items" = .arr items from rfl,
    show getD (sortQ items corr) "correct" = .arr (corr.map JVal.int) from rfl]
  have hlt : ¬ items.length < 2 := by omega
  simp [hlt, pyIsInt_int, pyToInt_int, map_pyToInt_map_int, map_pyToInt_comp_int]

/-- C1: a sort question with base fields present, at least two items and
an integer list `correct` is accepted exactly when `correct` is a
permutation of `0..n-1`; any other integer list (wrong length,
out-of-range value, repeated value) is rejected as invalid. -/
theorem sort_correct_valid_iff_perm (items : List JVal) (corr : List Int) (h2 : 2 ≤ items.length) :
    (validate_question (sortQ items corr) = .ok (true, "OK") ↔
      corr.Perm (rangeInt items.length)) ∧
    (¬ corr.Perm (rangeInt items.length) →
      ∃ r, validate_question (sortQ items corr) = .ok (false, r)) := by
  have he : validate_question (sortQ items corr) = .ok (validate_sort (sortQ items corr)) :=
    validate_mkQ_sort [("items", .arr items), ("correct", .arr (corr.map JVal.int))]
  rw [he, sortQ_eval items corr h2]
  by_cases h1 : corr.length = items.length
  · rw [if_pos h1]
    by_cases hx : ∃ v ∈ corr, v < 0 ∨ (items.length : Int) ≤ v
    · have hnp : ¬ corr.Perm (rangeInt items.length) := by
        intro hp
        obtain ⟨v, hv, hbad⟩ := hx
        have := mem_rangeInt (hp.subset hv)
        omega
      rw [if_pos hx]
      exact ⟨⟨fun h => absurd h (by simp), fun hp => absurd hp hnp⟩, fun _ => ⟨_, rfl⟩⟩
    · rw [if_neg hx]
      by_cases h3 : List.insertionSort (· ≤ ·) corr = rangeInt items.length
      · have hp : corr.Perm (rangeInt items.length) :=
          (List.perm_insertionSort (· ≤ ·) corr).symm.trans (h3 ▸ List.Perm.refl _)
        rw [if_pos h3]
        exact ⟨⟨fun _ => hp, fun _ => rfl⟩, fun hnp => absurd hp hnp⟩
      · have hnp : ¬ corr.Perm (rangeInt items.length) := by
          intro hp
          exact h3 (List.eq_of_perm_of_sorted ((List.perm_insertionSort _ corr).trans hp)
            (List.sorted_insertionSort _ corr) (rangeInt_sorted _))
        rw [if_neg h3]
        exact ⟨⟨fun h => absurd h (by simp), fun hp => absurd hp hnp⟩, fun _ => ⟨_, rfl⟩⟩
  · have hnp : ¬ corr.Perm (rangeInt items.length) := fun hp =>
      h1 (hp.length_eq.trans (rangeInt_length _))
    rw [if_neg h1]
    exact ⟨⟨fun h => absurd h (by simp), fun hp => absurd hp hnp⟩, fun _ => ⟨_, rfl⟩⟩

/-- C1 witness: three items with correct order `[2, 0, 1]`, a permutation,
accepted. -/
theorem sort_correct_valid_iff_perm_witness :
    validate_question (sortQ [.str "a", .str "b", .str "c"] [2, 0, 1]) = .ok (true, "OK") :=
  ((sort_correct_valid_iff_perm [.str "a", .str "b", .str "c"] [2, 0, 1] (by decide)).1).mpr
    (by decide)

/-- The connect-nodes record whose nodes and pairs are already canonical:
nodes as `(id, label)`, pairs as `(leftId, rightId)`. -/
def cnQ (l r ps : List (String × String)) : QDict :=
  mkQ "connect_nodes" [("leftNodes", .arr (l.map nodeJ)), ("rightNodes", .arr (r.map nodeJ)),
    ("correctPairs", .arr (ps.map pairJ))]

theorem filterMap_nodeIdOf (l : List (String × String)) :
    (l.map nodeJ).filterMap nodeIdOf = l.map Prod.fst := by
  induction l with
  | nil => rfl
  | cons n rest ih =>
    simp only [List.map_cons, List.filterMap_cons]
    rw [show nodeIdOf (nodeJ n) = some n.1 from rfl, ih]

theorem cnPairsLoop_eval (lset rset : List String) (ps : List (String × String)) :
    ∀ usedL usedR, (∀ p ∈ ps, p.1 ∈ lset ∧ p.2 ∈ rset) →
    cnPairsLoop lset rset (ps.map pairJ) usedL usedR =
      if (ps.map Prod.fst).Nodup ∧ (ps.map Prod.snd).Nodup ∧
          (∀ p ∈ ps, p.1 ∉ usedL ∧ p.2 ∉ usedR) then (true, "OK")
      else (false, "connect_nodes: one-to-one mapping violated (duplicate left or right)") := by
  induction ps with
  | nil =>
    intro usedL usedR _
    rw [if_pos (by simp)]
    rfl
  | cons p rest ih =>
    intro usedL usedR hmem
    have hp := hmem p (List.mem_cons_self _ _)
    simp only [List.map_cons, pairJ, cnPairsLoop]
    rw [if_pos ⟨rfl, rfl⟩]
    rw [if_pos (show pyStr (getD [("leftId", JVal.str p.1), ("rightId", JVal.str p.2)] "leftId") ∈ lset ∧
      pyStr (getD [("leftId", JVal.str p.1), ("rightId", JVal.str p.2)] "rightId") ∈ rset from hp)]
    rw [show pyStr (getD [("leftId", JVal.str p.1), ("rightId", JVal.str p.2)] "leftId") = p.1 from rfl,
      show pyStr (getD [("leftId", JVal.str p.1), ("rightId", JVal.str p.2)] "rightId") = p.2 from rfl]
    by_cases hused : p.1 ∈ usedL ∨ p.2 ∈ usedR
    · rw [if_pos hused]
      rw [if_neg ?hc]
      case hc =>
        rintro ⟨_, _, hall⟩
        have hpall := hall p (List.mem_cons_self _ _)
        rcases hused with hu | hu
        · exact hpall.1 hu
        · exact hpall.2 hu
    · rw [if_neg hused]
      push_neg at hused
      rw [ih (p.1 :: usedL) (p.2 :: usedR) (fun q hq => hmem q (List.mem_cons_of_mem _ hq))]
      apply if_congr ?hiff rfl rfl
      case hiff =>
        simp only [List.map_cons, List.nodup_cons]
        constructor
        · rintro ⟨hnd1, hnd2, hall⟩
          have hp1 : p.1 ∉ rest.map Prod.fst := by
            intro hm
            rcases List.mem_map.mp hm with ⟨q, hq, hfst⟩
            exact (hall q hq).1 (by rw [← hfst]; exact List.mem_cons_self _ _)
          have hp2 : p.2 ∉ rest.map Prod.snd := by
            intro hm
            rcases List.mem_map.mp hm with ⟨q, hq, hsnd⟩
            exact (hall q hq).2 (by rw [← hsnd]; exact List.mem_cons_self _ _)
          refine ⟨⟨hp1, hnd1⟩, ⟨hp2, hnd2⟩, ?_⟩
          intro q hq
          rcases List.mem_cons.mp hq with heq | hq'
          · rw [heq]
            exact hused
          · have hq2 := hall q hq'
            exact ⟨fun hm => hq2.1 (List.mem_cons_of_mem _ hm),
              fun hm => hq2.2 (List.mem_cons_of_mem _ hm)⟩
        · rintro ⟨⟨hp1, hnd1⟩, ⟨hp2, hnd2⟩, hall⟩
          refine ⟨hnd1, hnd2, ?_⟩
          intro q hq
          have hq2 := hall q (List.mem_cons_of_mem _ hq)
          constructor
          · intro hm
            rcases List.mem_cons.mp hm with heq | hm'
            · exact hp1 (heq ▸ List.mem_map_of_mem Prod.fst hq)
            · exact hq2.1 hm'
          · intro hm
            rcases List.mem_cons.mp hm with heq | hm'
            · exact hp2 (heq ▸ List.mem_map_of_mem Prod.snd hq)
            · exact hq2.2 hm'

theorem cnQ_eval (l r ps : List (String × String))
    (hl : (l.map Prod.fst).Nodup) (hr : (r.map Prod.fst).Nodup)
    (hmem : ∀ p ∈ ps, p.1 ∈ l.map Prod.fst ∧ p.2 ∈ r.map Prod.fst) :
    validate_question (cnQ l r ps) =
      .ok (if (ps.map Prod.fst).Nodup ∧ (ps.map Prod.snd).Nodup then (true, "OK")
        else (false, "connect_nodes: one-to-one mapping violated (duplicate left or right)")) := by
  have he := validate_mkQ_connect_nodes [("leftNodes", .arr (l.map nodeJ)),
    ("rightNodes", .arr (r.map nodeJ)), ("correctPairs", .arr (ps.map pairJ))]
  rw [show cnQ l r ps = mkQ "connect_nodes" [("leftNodes", .arr (l.map nodeJ)),
    ("rightNodes", .arr (r.map nodeJ)), ("correctPairs", .arr (ps.map pairJ))] from rfl, he]
  unfold validate_connect_nodes
  rw [show getD (mkQ "connect_nodes" [("leftNodes", .arr (l.map nodeJ)),
      ("rightNodes", .arr (r.map nodeJ)), ("correctPairs", .arr (ps.map pairJ))]) "leftNodes" =
      .arr (l.map nodeJ) from rfl,
    show getD (mkQ "connect_nodes" [("leftNodes", .arr (l.map nodeJ)),
      ("rightNodes", .arr (r.map nodeJ)), ("correctPairs", .arr (ps.map pairJ))]) "rightNodes" =
      .arr (r.map nodeJ) from rfl,
    show getD (mkQ "connect_nodes" [("leftNodes", .arr (l.map nodeJ)),
      ("rightNodes", .arr (r.map nodeJ)), ("correctPairs", .arr (ps.map pairJ))]) "correctPairs" =
      .arr (ps.map pairJ) from rfl,
    orEmptyList_arr, orEmptyList_arr, orEmptyList_arr]
  simp only [filterMap_nodeIdOf]
  rw [if_neg (not_ne_iff.mpr (dedup_length_eq_iff.mpr hl)),
    if_neg (not_ne_iff.mpr (dedup_length_eq_iff.mpr hr))]
  simp only [pyIter]
  rw [cnPairsLoop_eval (l.map Prod.fst) (r.map Prod.fst) ps [] [] hmem]
  apply congrArg
  apply if_congr ?hiff rfl rfl
  case hiff => simp

/-- C7: a connect_nodes question (base fields present, canonical nodes
with per-side-unique ids, every pair referencing existing node ids) is
rejected with the one-to-one-violation reason exactly when some `leftId`
or some `rightId` is used by two pairs; with no reuse it validates OK. -/
theorem connect_nodes_one_to_one (l r ps : List (String × String))
    (hl : (l.map Prod.fst).Nodup) (hr : (r.map Prod.fst).Nodup)
    (hmem : ∀ p ∈ ps, p.1 ∈ l.map Prod.fst ∧ p.2 ∈ r.map Prod.fst) :
    (validate_question (cnQ l r ps) =
        .ok (false, "connect_nodes: one-to-one mapping violated (duplicate left or right)") ↔
      ¬ ((ps.map Prod.fst).Nodup ∧ (ps.map Prod.snd).Nodup)) ∧
    ((ps.map Prod.fst).Nodup → (ps.map Prod.snd).Nodup →
      validate_question (cnQ l r ps) = .ok (true, "OK")) := by
  rw [cnQ_eval l r ps hl hr hmem]
  by_cases hnd : (ps.map Prod.fst).Nodup ∧ (ps.map Prod.snd).Nodup
  · rw [if_pos hnd]
    exact ⟨⟨fun h => absurd h (by simp), fun hn => absurd hnd hn⟩, fun _ _ => rfl⟩
  · rw [if_neg hnd]
    exact ⟨⟨fun _ => hnd, fun _ => rfl⟩, fun h1 h2 => absurd ⟨h1, h2⟩ hnd⟩

/-- C7 witness: two pairs sharing the left id `l1` are rejected with the
one-to-one reason. -/
theorem connect_nodes_one_to_one_witness :
    validate_question (cnQ [("l1", "A"), ("l2", "B")] [("r1", "X"), ("r2", "Y")]
        [("l1", "r1"), ("l1", "r2")]) =
      .ok (false, "connect_nodes: one-to-one mapping violated (duplicate left or right)") :=
  ((connect_nodes_one_to_one [("l1", "A"), ("l2", "B")] [("r1", "X"), ("r2", "Y")]
    [("l1", "r1"), ("l1", "r2")] (by decide) (by decide) (by decide)).1).mpr (by decide)

/-- C3: the legacy string-array document of the spec converts exactly as
documented: fresh side-scoped ids `l1,l2` / `r1,r2` in order, and the
label-based pair resolved to `{leftId: l1, rightId: r1}`. -/
theorem connect_nodes_legacy_conversion :
    _normalize_connect_nodes (.obj [("leftNodes", .arr [.str "A", .str "B"]),
        ("rightNodes", .arr [.str "X", .str "Y"]),
        ("correctPairs", .arr [.obj [("left", .str "A"), ("right", .str "X")]])]) =
      .ok (cnJ [("l1", "A"), ("l2", "B")] [("r1", "X"), ("r2", "Y")] [("l1", "r1")]) := rfl

/-- The document of C2's counterexample: canonical in shape (nodes are
`{id, label}` objects with string fields), but with the empty string as an
id. -/
def c2doc : JVal :=
  .obj [("leftNodes", .arr [.obj [("id", .str ""), ("label", .str "A")]]),
    ("rightNodes", .arr []), ("correctPairs", .arr [])]

/-- C2 counterexample: on a document in the claim's canonical shape whose
node id is the empty string (a string field), the normalizer reallocates
the id (`'' or default` treats it as absent), so the output is not
structurally identical to the input. -/
theorem connect_nodes_normalize_idempotent_cex :
    _normalize_connect_nodes c2doc = .ok (cnJ [("l1", "A")] [] []) ∧
    cnJ [("l1", "A")] [] [] ≠ c2doc := by
  refine ⟨rfl, ?_⟩
  intro h
  simp [cnJ, nodeJ, c2doc] at h

/-- C2 as amended: on a canonical document whose per-side node ids are
nonempty and unique, the normalizer is the identity; and whenever
normalization succeeds, normalizing its output returns the output
unchanged (`normalize (normalize q) = normalize q`). -/
theorem connect_nodes_normalize_idempotent_amended :
    (∀ l r ps : List (String × String),
      (∀ n ∈ l, n.1 ≠ "") → (l.map Prod.fst).Nodup →
      (∀ n ∈ r, n.1 ≠ "") → (r.map Prod.fst).Nodup →
      _normalize_connect_nodes (cnJ l r ps) = .ok (cnJ l r ps)) ∧
    (∀ q out : JVal, _normalize_connect_nodes q = .ok out →
      _normalize_connect_nodes out = .ok out) :=
  ⟨normalize_canonical, fun _ _ h => normalize_idempotent h⟩

/-- C2 witness: a concrete canonical document with nonempty unique ids is
returned unchanged. -/
theorem connect_nodes_normalize_idempotent_witness :
    _normalize_connect_nodes (cnJ [("l1", "A")] [("r1", "X")] [("l1", "r1")]) =
      .ok (cnJ [("l1", "A")] [("r1", "X")] [("l1", "r1")]) :=
  connect_nodes_normalize_idempotent_amended.1 [("l1", "A")] [("r1", "X")] [("l1", "r1")]
    (by decide) (by decide) (by decide) (by decide)

/-- A field value that is either falsy or an actual list — the shapes for
which the normalizer's `left[0]` / `for pr in pairs` probes cannot raise. -/
def listOrFalsy (v : JVal) : Bool :=
  !v.truthy || isList v

theorem orEmpty_of_listOrFalsy {v : JVal} (h : listOrFalsy v = true) :
    ∃ xs, orEmptyList v = .arr xs ∧ (v.truthy = false → xs = []) := by
  by_cases ht : v.truthy = true
  · cases v with
    | arr xs =>
      exact ⟨xs, orEmptyList_arr xs, fun hf => by rw [ht] at hf; cases hf⟩
    | null => simp [JVal.truthy] at ht
    | bool b => simp [listOrFalsy, isList, ht] at h
    | int n => simp [listOrFalsy, isList, ht] at h
    | str s => simp [listOrFalsy, isList, ht] at h
    | obj fs => simp [listOrFalsy, isList, ht] at h
  · have hf : v.truthy = false := by
      cases hv : v.truthy
      · rfl
      · exact absurd hv ht
    exact ⟨[], by simp [orEmptyList, hf], fun _ => rfl⟩

/-- C4 counterexample: a truthy non-subscriptable `leftNodes` (here the
integer 5) makes the normalizer raise `TypeError` at
`isinstance(left[0], str)` instead of defaulting the field. -/
theorem normalize_never_throws_cex :
    _normalize_connect_nodes (.obj [("leftNodes", .int 5)]) = .error .typeError := rfl

/-- C4 as amended: the normalizer never raises — and absent or falsy
fields default to empty sequences — provided each of `leftNodes`,
`rightNodes`, `correctPairs` is absent, falsy, or an actual list (a falsy
whole argument normalizes to the empty canonical document). -/
theorem normalize_never_throws_amended :
    (∀ v : JVal, v.truthy = false → _normalize_connect_nodes v = .ok (cnJ [] [] [])) ∧
    (∀ qf : QDict,
      listOrFalsy (getD qf "leftNodes") = true →
      listOrFalsy (getD qf "rightNodes") = true →
      listOrFalsy (getD qf "correctPairs") = true →
      ∃ l r ps, _normalize_connect_nodes (.obj qf) = .ok (cnJ l r ps) ∧
        ((getD qf "leftNodes").truthy = false → l = []) ∧
        ((getD qf "rightNodes").truthy = false → r = []) ∧
        ((getD qf "correctPairs").truthy = false → ps = [])) := by
  constructor
  · intro v hv
    unfold _normalize_connect_nodes
    rw [if_neg (by rw [hv]; exact Bool.false_ne_true)]
  · intro qf h1 h2 h3
    obtain ⟨ls, hls, hle⟩ := orEmpty_of_listOrFalsy h1
    obtain ⟨rs, hrs, hre⟩ := orEmpty_of_listOrFalsy h2
    obtain ⟨ps0, hps, hpe⟩ := orEmpty_of_listOrFalsy h3
    by_cases ht : (JVal.obj qf).truthy = true
    · obtain ⟨bl, hbl⟩ := hasStrHead_arr ls
      obtain ⟨br, hbr⟩ := hasStrHead_arr rs
      refine ⟨to_nodes ls "l", to_nodes rs "r",
        normPairs (to_nodes ls "l") (to_nodes rs "r") ps0, ?_, ?_, ?_, ?_⟩
      · unfold _normalize_connect_nodes
        rw [if_pos ht]
        simp only [hls, hrs, hps, hbl, hbr, iterIfTruthy_arr, pyIter]
      · intro hf
        rw [hle hf]
        rfl
      · intro hf
        rw [hre hf]
        rfl
      · intro hf
        rw [hpe hf]
        rfl
    · have hf : (JVal.obj qf).truthy = false := by
        cases hv : (JVal.obj qf).truthy
        · rfl
        · exact absurd hv ht
      refine ⟨[], [], [], ?_, fun _ => rfl, fun _ => rfl, fun _ => rfl⟩
      unfold _normalize_connect_nodes
      rw [if_neg (by rw [hf]; exact Bool.false_ne_true)]

/-- C4 witness: a dict with list fields (and one falsy field) normalizes
without raising, the falsy field defaulting to empty. -/
theorem normalize_never_throws_witness :
    ∃ l r ps, _normalize_connect_nodes (.obj [("leftNodes", .arr [.str "A"])]) =
      .ok (cnJ l r ps) ∧
      ((getD [("leftNodes", .arr [.str "A"])] "leftNodes").truthy = false → l = []) ∧
      ((getD [("leftNodes", .arr [.str "A"])] "rightNodes").truthy = false → r = []) ∧
      ((getD [("leftNodes", .arr [.str "A"])] "correctPairs").truthy = false → ps = []) :=
  normalize_never_throws_amended.2 [("leftNodes", .arr [.str "A"])]
    (by decide) (by decide) (by decide)

/-- A legacy label-based pair `{left: ..., right: ...}`. -/
def legacyPairJ (p : String × String) : JVal :=
  .obj [("left", .str p.1), ("right", .str p.2)]

theorem lblMapGet_eq_none_iff (nodes : List (String × String)) (k : String) :
    lblMapGet nodes k = none ↔ ¬ ∃ n ∈ nodes, pyStrip n.2 = k := by
  unfold lblMapGet
  cases hfind : nodes.reverse.find? (fun n => pyStrip n.2 == k) with
  | none =>
    simp only [true_iff]
    rintro ⟨n, hn, hk⟩
    have := List.find?_eq_none.mp hfind n (List.mem_reverse.mpr hn)
    exact this (by simp [hk])
  | some n =>
    simp only [reduceCtorEq, false_iff, not_not]
    refine ⟨n, List.mem_reverse.mp (List.mem_of_find?_eq_some hfind), ?_⟩
    have := List.find?_some hfind
    simpa using this

theorem lblMapGet_some_ne_empty {nodes : List (String × String)} {k v : String}
    (hne : ∀ n ∈ nodes, n.1 ≠ "") (h : lblMapGet nodes k = some v) : v ≠ "" := by
  unfold lblMapGet at h
  cases hfind : nodes.reverse.find? (fun n => pyStrip n.2 == k) with
  | none => rw [hfind] at h; cases h
  | some n =>
    rw [hfind] at h
    injection h with h2
    rw [← h2]
    exact hne n (List.mem_reverse.mp (List.mem_of_find?_eq_some hfind))

theorem lblMapGet_some_mem {nodes : List (String × String)} {k v : String}
    (h : lblMapGet nodes k = some v) : ∃ n ∈ nodes, pyStrip n.2 = k := by
  unfold lblMapGet at h
  cases hfind : nodes.reverse.find? (fun n => pyStrip n.2 == k) with
  | none => rw [hfind] at h; cases h
  | some n =>
    refine ⟨n, List.mem_reverse.mp (List.mem_of_find?_eq_some hfind), ?_⟩
    have := List.find?_some hfind
    simpa using this

theorem resolveLegacy_none_iff (ln rn : List (String × String))
    (hlne : ∀ n ∈ ln, n.1 ≠ "") (hrne : ∀ n ∈ rn, n.1 ≠ "") (lv rv : String) :
    resolveLegacy ln rn (.str lv) (.str rv) = none ↔
      ¬ ((∃ n ∈ ln, pyStrip n.2 = pyStrip lv) ∧ (∃ n ∈ rn, pyStrip n.2 = pyStrip rv)) := by
  unfold resolveLegacy
  rw [show pyStr (.str lv) = lv from rfl, show pyStr (.str rv) = rv from rfl]
  cases hA : lblMapGet ln (pyStrip lv) with
  | none =>
    simp only [true_iff]
    rintro ⟨hexl, _⟩
    exact (lblMapGet_eq_none_iff ln (pyStrip lv)).mp hA hexl
  | some lid =>
    cases hB : lblMapGet rn (pyStrip rv) with
    | none =>
      simp only [true_iff]
      rintro ⟨_, hexr⟩
      exact (lblMapGet_eq_none_iff rn (pyStrip rv)).mp hB hexr
    | some rid =>
      show (if lid ≠ "" ∧ rid ≠ "" then some (lid, rid) else none) = none ↔ _
      rw [if_pos ⟨lblMapGet_some_ne_empty hlne hA, lblMapGet_some_ne_empty hrne hB⟩]
      simp only [reduceCtorEq, false_iff, not_not]
      exact ⟨lblMapGet_some_mem hA, lblMapGet_some_mem hB⟩

theorem normPairs_legacy (ln rn : List (String × String)) (ps : List (String × String)) :
    normPairs ln rn (ps.map legacyPairJ) =
      ps.filterMap (fun p => resolveLegacy ln rn (.str p.1) (.str p.2)) := by
  induction ps with
  | nil => rfl
  | cons p rest ih =>
    simp only [List.map_cons, legacyPairJ, normPairs, List.filterMap_cons]
    rw [if_neg ?hno]
    case hno =>
      rintro ⟨hk, _⟩
      rw [show hasKey [("left", JVal.str p.1), ("right", JVal.str p.2)] "leftId" = false from rfl] at hk
      cases hk
    rw [if_pos ⟨rfl, rfl⟩]
    rw [show getD [("left", JVal.str p.1), ("right", JVal.str p.2)] "left" = .str p.1 from rfl,
      show getD [("left", JVal.str p.1), ("right", JVal.str p.2)] "right" = .str p.2 from rfl]
    cases hres : resolveLegacy ln rn (.str p.1) (.str p.2) with
    | none => rw [ih]
    | some q => rw [ih]

theorem normalize_arr_eval (lits rits prs : List JVal) :
    _normalize_connect_nodes (.obj [("leftNodes", .arr lits), ("rightNodes", .arr rits),
        ("correctPairs", .arr prs)]) =
      .ok (cnJ (to_nodes lits "l") (to_nodes rits "r")
        (normPairs (to_nodes lits "l") (to_nodes rits "r") prs)) := by
  obtain ⟨bl, hbl⟩ := hasStrHead_arr lits
  obtain ⟨br, hbr⟩ := hasStrHead_arr rits
  unfold _normalize_connect_nodes
  rw [if_pos (show (JVal.obj [("leftNodes", .arr lits), ("rightNodes", .arr rits),
    ("correctPairs", .arr prs)]).truthy = true from rfl)]
  simp only [getD_cn_left, getD_cn_right, getD_cn_pairs, orEmptyList_arr, hbl, hbr,
    iterIfTruthy_arr, pyIter]

/-- C5: legacy label-based pairs are normalized best-effort without
raising: the output pairs are exactly the label-resolvable pairs in order
(the unresolvable ones silently dropped), every resolvable pair is kept,
and a pair resolves exactly when both its stripped labels match some
normalized node label on their side. -/
theorem legacy_pairs_best_effort (lits rits : List JVal) (ps : List (String × String)) :
    _normalize_connect_nodes (.obj [("leftNodes", .arr lits), ("rightNodes", .arr rits),
        ("correctPairs", .arr (ps.map legacyPairJ))]) =
      .ok (cnJ (to_nodes lits "l") (to_nodes rits "r")
        (ps.filterMap (fun p => resolveLegacy (to_nodes lits "l") (to_nodes rits "r")
          (.str p.1) (.str p.2)))) ∧
    (∀ p ∈ ps, ∀ q, resolveLegacy (to_nodes lits "l") (to_nodes rits "r")
        (.str p.1) (.str p.2) = some q →
      q ∈ ps.filterMap (fun p => resolveLegacy (to_nodes lits "l") (to_nodes rits "r")
        (.str p.1) (.str p.2))) ∧
    (∀ p ∈ ps, resolveLegacy (to_nodes lits "l") (to_nodes rits "r")
        (.str p.1) (.str p.2) = none ↔
      ¬ ((∃ n ∈ to_nodes lits "l", pyStrip n.2 = pyStrip p.1) ∧
        (∃ n ∈ to_nodes rits "r", pyStrip n.2 = pyStrip p.2))) := by
  refine ⟨?_, ?_, ?_⟩
  · rw [normalize_arr_eval, normPairs_legacy]
  · intro p hp q hq
    exact List.mem_filterMap.mpr ⟨p, hp, hq⟩
  · intro p _
    exact resolveLegacy_none_iff (to_nodes lits "l") (to_nodes rits "r")
      (to_nodes_ids_ne_empty lits "l") (to_nodes_ids_ne_empty rits "r") p.1 p.2

/-- C5 witness: one resolvable and one unresolvable legacy pair — the
resolvable one is kept as `(l1, r1)`, the stale one dropped. -/
theorem legacy_pairs_best_effort_witness :
    _normalize_connect_nodes (.obj [("leftNodes", .arr [.str "A"]), ("rightNodes", .arr [.str "X"]),
        ("correctPairs", .arr ([("A", "X"), ("Z", "X")].map legacyPairJ))]) =
      .ok (cnJ (to_nodes [.str "A"] "l") (to_nodes [.str "X"] "r")
        ([("A", "X"), ("Z", "X")].filterMap
          (fun p => resolveLegacy (to_nodes [.str "A"] "l") (to_nodes [.str "X"] "r")
            (.str p.1) (.str p.2)))) :=
  (legacy_pairs_best_effort [.str "A"] [.str "X"] [("A", "X"), ("Z", "X")]).1

end Editor


